import Mathlib

/-!
Shallow embedding of the activity-log core of the CodeDAO Dashboard SDK:
the `AgentLogger` class (agentLogger.js) and the JSON schema (schema.js).
JSON values are modelled by the inductive `Json` below; JavaScript numbers
are modelled as rationals (`ℚ`), which suffices for the schema's numeric
range and integrality checks.
-/

/-- A JSON value, as produced by `JSON.parse` / consumed by `JSON.stringify`.
Objects are insertion-ordered key/value lists (JS object semantics); the
operations of this development never create duplicate keys, matching
`JSON.parse`, which keeps a single binding per key. -/
inductive Json where
  | null : Json
  | bool (b : Bool) : Json
  | num (q : ℚ) : Json
  | str (s : String) : Json
  | arr (xs : List Json) : Json
  | obj (fs : List (String × Json)) : Json

mutual

/-- Structural equality of JSON values (JS deep equality on parse trees). -/
def Json.beq : Json → Json → Bool
  | .null, .null => true
  | .bool a, .bool b => a == b
  | .num a, .num b => a == b
  | .str a, .str b => a == b
  | .arr as, .arr bs => Json.beqList as bs
  | .obj as, .obj bs => Json.beqFields as bs
  | _, _ => false

/-- Element-wise equality of JSON arrays. -/
def Json.beqList : List Json → List Json → Bool
  | [], [] => true
  | a :: as, b :: bs => Json.beq a b && Json.beqList as bs
  | _, _ => false

/-- Element-wise equality of JSON object field lists. -/
def Json.beqFields : List (String × Json) → List (String × Json) → Bool
  | [], [] => true
  | (k, v) :: as, (l, w) :: bs => k == l && Json.beq v w && Json.beqFields as bs
  | _, _ => false

end

mutual

theorem Json.beq_iff : ∀ a b : Json, Json.beq a b = true ↔ a = b
  | .null, .null => by simp [Json.beq]
  | .bool a, .bool b => by simp [Json.beq]
  | .num a, .num b => by simp [Json.beq]
  | .str a, .str b => by simp [Json.beq]
  | .arr as, .arr bs => by
      rw [Json.beq]
      rw [Json.beqList_iff as bs]
      simp
  | .obj as, .obj bs => by
      rw [Json.beq]
      rw [Json.beqFields_iff as bs]
      simp
  | .null, .bool _ | .null, .num _ | .null, .str _ | .null, .arr _ | .null, .obj _
  | .bool _, .null | .bool _, .num _ | .bool _, .str _ | .bool _, .arr _ | .bool _, .obj _
  | .num _, .null | .num _, .bool _ | .num _, .str _ | .num _, .arr _ | .num _, .obj _
  | .str _, .null | .str _, .bool _ | .str _, .num _ | .str _, .arr _ | .str _, .obj _
  | .arr _, .null | .arr _, .bool _ | .arr _, .num _ | .arr _, .str _ | .arr _, .obj _
  | .obj _, .null | .obj _, .bool _ | .obj _, .num _ | .obj _, .str _ | .obj _, .arr _ => by
      simp [Json.beq]

theorem Json.beqList_iff : ∀ as bs : List Json, Json.beqList as bs = true ↔ as = bs
  | [], [] => by simp [Json.beqList]
  | a :: as, b :: bs => by
      rw [Json.beqList]
      rw [Bool.and_eq_true]
      rw [Json.beq_iff a b]
      rw [Json.beqList_iff as bs]
      simp
  | [], _ :: _ => by simp [Json.beqList]
  | _ :: _, [] => by simp [Json.beqList]

theorem Json.beqFields_iff :
    ∀ as bs : List (String × Json), Json.beqFields as bs = true ↔ as = bs
  | [], [] => by simp [Json.beqFields]
  | (k, v) :: as, (l, w) :: bs => by
      rw [Json.beqFields]
      rw [Bool.and_eq_true, Bool.and_eq_true]
      rw [Json.beq_iff v w]
      rw [Json.beqFields_iff as bs]
      simp [and_assoc]
  | [], _ :: _ => by simp [Json.beqFields]
  | _ :: _, [] => by simp [Json.beqFields]

end

instance : DecidableEq Json := fun a b => decidable_of_iff _ (Json.beq_iff a b)

/-- Property access `o[k]` on a JSON object: the value bound to key `k`,
`none` when the receiver is not an object or lacks the key. -/
def Json.getField : Json → String → Option Json
  | .obj fs, k => (fs.find? (fun p => p.1 == k)).map Prod.snd
  | _, _ => none

/-- JS `Array.isArray` shape test, deciding which branch `activities.filter`
takes in `importActivities` (calling `.filter` on a non-array throws). -/
def Json.isArr : Json → Bool
  | .arr _ => true
  | _ => false

/-! ## The activity schema (schema.js)

The JSON Schema object in `schema.js` is rendered as a boolean validator.
The schema is compiled and run by the Ajv library, which is not part of this
repository; its semantics for this particular schema (`type`, `required`,
`enum`, `minLength`, `pattern`, `minimum`/`maximum`, `items`,
`additionalProperties`) is the standard JSON-Schema meaning translated
clause by clause below. -/

/-- The `type` enum of the schema: the twelve activity categories. -/
def typeEnum : List String :=
  ["commit", "analysis", "detection", "validation", "monitoring", "documentation",
   "security", "optimization", "refactoring", "deployment", "collaboration", "info"]

/-- The `status` enum of the schema. -/
def statusEnum : List String :=
  ["success", "processing", "error", "warning", "info"]

/-- The six `required` top-level keys of the schema. -/
def requiredKeys : List String :=
  ["id", "timestamp", "agent", "action", "type", "status"]

/-- An ASCII decimal digit. -/
def isDigitChar (c : Char) : Bool := decide ('0' ≤ c) && decide (c ≤ '9')

/-- A character allowed by the `commitHash` pattern `^[a-f0-9]+$`. -/
def isHexLowerChar (c : Char) : Bool :=
  isDigitChar c || (decide ('a' ≤ c) && decide (c ≤ 'f'))

/-- Modelled from the spec: Ajv's `format: "date-time"` check (the Ajv
library is not under src/). The spec says the timestamp is "a string in
recognizable date-time format", an "ISO-8601 string representation ...
timezone-normalized (UTC, 'Z' suffix)"; this is modelled as the exact shape
`YYYY-MM-DDTHH:MM:SS.mmmZ` that `Date.prototype.toISOString` produces, the
only shape the store itself ever generates. -/
def isDateTime (s : String) : Bool :=
  match s.toList with
  | [y1, y2, y3, y4, '-', m1, m2, '-', d1, d2, 'T',
     h1, h2, ':', n1, n2, ':', c1, c2, '.', f1, f2, f3, 'Z'] =>
      [y1, y2, y3, y4, m1, m2, d1, d2, h1, h2, n1, n2, c1, c2, f1, f2, f3].all isDigitChar
  | _ => false

/-- Modelled from the spec: Ajv's `format: "uri"` check for `metadata.url`
(the Ajv library is not under src/); modelled as "contains a scheme
separator". No claim depends on this predicate's fine structure. -/
def isUri (s : String) : Bool := s.toList.any (fun c => c == ':')

/-- Schema `id`: `type: ["number", "string"]`; also the element schema of
`metadata.relatedActivities`. -/
def checkNumOrStr : Json → Bool
  | .num _ => true
  | .str _ => true
  | _ => false

/-- A sub-schema of the form `type: "string"`. -/
def checkString : Json → Bool
  | .str _ => true
  | _ => false

/-- A sub-schema `type: "string", minLength: 1` (`agent`, `action`). -/
def checkNonEmptyString : Json → Bool
  | .str s => s.length != 0
  | _ => false

/-- A sub-schema `type: "string", enum: es` (`type`, `status`). -/
def checkEnum (es : List String) : Json → Bool
  | .str s => es.contains s
  | _ => false

/-- Schema `timestamp`: `type: "string", format: "date-time"`. -/
def checkTimestamp : Json → Bool
  | .str s => isDateTime s
  | _ => false

/-- Schema `metadata.commitHash`: `type: "string", pattern: "^[a-f0-9]+$"`. -/
def checkCommitHash : Json → Bool
  | .str s => s.length != 0 && s.toList.all isHexLowerChar
  | _ => false

/-- A sub-schema `type: "integer"` (`pullRequest`, `issue`, and the items of
`lineNumbers`): a JSON number with integral value. -/
def checkInteger : Json → Bool
  | .num q => q.den == 1
  | _ => false

/-- Schema `metadata.duration`: `type: "number", minimum: 0`. -/
def checkDuration : Json → Bool
  | .num q => decide (0 ≤ q)
  | _ => false

/-- Schema `metadata.confidence`: `type: "number", minimum: 0, maximum: 1`. -/
def checkConfidence : Json → Bool
  | .num q => decide (0 ≤ q) && decide (q ≤ 1)
  | _ => false

/-- A sub-schema `type: "array", items: p`. -/
def checkArrayOf (p : Json → Bool) : Json → Bool
  | .arr xs => xs.all p
  | _ => false

/-- Schema `metadata.url`: `type: "string", format: "uri"`. -/
def checkUri : Json → Bool
  | .str s => isUri s
  | _ => false

/-- The `metadata.properties` sub-schemas, keyed as in schema.js; keys outside
them are accepted (`additionalProperties: true` on `metadata`). -/
def metadataFieldOk (k : String) (v : Json) : Bool :=
  if k = "commitHash" then checkCommitHash v
  else if k = "filePath" then checkString v
  else if k = "lineNumbers" then checkArrayOf checkInteger v
  else if k = "duration" then checkDuration v
  else if k = "confidence" then checkConfidence v
  else if k = "tags" then checkArrayOf checkString v
  else if k = "relatedActivities" then checkArrayOf checkNumOrStr v
  else if k = "repository" then checkString v
  else if k = "branch" then checkString v
  else if k = "pullRequest" then checkInteger v
  else if k = "issue" then checkInteger v
  else if k = "errorMessage" then checkString v
  else if k = "url" then checkUri v
  else true

/-- Schema `metadata`: `type: "object"` whose recognized sub-fields conform,
with `additionalProperties: true`. -/
def checkMetadata : Json → Bool
  | .obj fs => fs.all (fun p => metadataFieldOk p.1 p.2)
  | _ => false

/-- The top-level `properties` sub-schemas; a key outside the seven declared
properties fails (`additionalProperties: false` at the top level). -/
def topFieldOk (k : String) (v : Json) : Bool :=
  if k = "id" then checkNumOrStr v
  else if k = "timestamp" then checkTimestamp v
  else if k = "agent" then checkNonEmptyString v
  else if k = "action" then checkNonEmptyString v
  else if k = "type" then checkEnum typeEnum v
  else if k = "status" then checkEnum statusEnum v
  else if k = "metadata" then checkMetadata v
  else false

/-- `AgentLogger.validate`: the compiled schema applied to a candidate.
An activity is valid iff it is an object, all six `required` keys are
present, and every present field satisfies its property sub-schema (with
unknown top-level keys rejected by `additionalProperties: false`). -/
def validate (j : Json) : Bool :=
  match j with
  | .obj fs =>
      requiredKeys.all (fun k => fs.any (fun p => p.1 == k))
        && fs.all (fun p => topFieldOk p.1 p.2)
  | _ => false

/-! ## The activity log store (AgentLogger, agentLogger.js)

`localStorage` holds a single slot under `STORAGE_KEY`; the slot is either
absent (`getItem` returns `null`), holds unparseable text (`JSON.parse`
throws), or holds the serialization of a JSON array of records.  The store
only ever writes serialized arrays, so the `stored` case carries the parsed
array.  `JSON.parse` / `JSON.stringify` (JS builtins, not part of this
repository) are modelled as inverse maps between text and `Json` trees:
serialization boundaries below pass the tree itself, and a parse of
arbitrary text is an `Except Unit Json` (with `Except.error` for text that
is not well-formed JSON). -/

/-- The `localStorage` slot under `AgentLogger.STORAGE_KEY`. -/
inductive Slot where
  | absent : Slot
  | corrupt : Slot
  | stored (l : List Json) : Slot
  deriving DecidableEq

/-- The custom DOM events `AgentLogger` dispatches on `window`:
`codedao:activity` (with the new record as `detail`), `codedao:cleared`
(no payload) and `codedao:imported` (no payload). -/
inductive SDKEvent where
  | activity (detail : Json) : SDKEvent
  | cleared : SDKEvent
  | imported : SDKEvent
  deriving DecidableEq

/-- The observable state: the storage slot plus the list of events
dispatched so far (in dispatch order). -/
structure SDKState where
  slot : Slot
  events : List SDKEvent
  deriving DecidableEq

/-- A fresh browser context: no slot written yet, no events dispatched. -/
def initState : SDKState := ⟨Slot.absent, []⟩

/-- `AgentLogger.MAX_ACTIVITIES` ("Prevent localStorage overflow"). -/
def MAX_ACTIVITIES : Nat := 1000

/-- `activities.slice(0, e)` for a JS number `e`: a negative end counts from
the end of the array, a nonnegative end is clamped to the length. -/
def jsSliceEnd (l : List Json) (e : Int) : List Json :=
  if e < 0 then l.take (l.length - (-e).toNat)
  else l.take e.toNat

/-- `limit ? activities.slice(0, limit) : activities`: `limit` is falsy when
it is `null` (omitted, `none`) or the number `0`. -/
def jsLimit (l : List Json) : Option Int → List Json
  | none => l
  | some n => if n = 0 then l else jsSliceEnd l n

/-- `AgentLogger.getActivities(limit)`: reads the slot (`null` becomes `[]`),
parses it (a parse failure is caught and yields `[]` whatever the limit),
and applies the truthiness-guarded slice. -/
def getActivities (s : SDKState) (limit : Option Int) : List Json :=
  match s.slot with
  | .absent => jsLimit [] limit
  | .corrupt => []
  | .stored l => jsLimit l limit

/-- The candidate record `AgentLogger.log` assembles: the generated
`id = Date.now() + Math.random()` (a JS number, here the oracle input `idv`)
and `timestamp = new Date().toISOString()` (the oracle input `ts`), the
caller's `agent` and `action`, and `type`/`status`/`metadata` with their
defaults `'info'`/`'success'`/`{}` when the caller omits them. -/
def mkActivity (idv : ℚ) (ts : String) (agent action : Json)
    (ty st md : Option Json) : Json :=
  Json.obj [("id", Json.num idv), ("timestamp", Json.str ts),
    ("agent", agent), ("action", action),
    ("type", ty.getD (Json.str "info")), ("status", st.getD (Json.str "success")),
    ("metadata", md.getD (Json.obj []))]

/-- `AgentLogger.log`: validates the assembled candidate; on failure warns
and returns `false` without touching state; on success reads the current
array, `unshift`s the record, `splice(MAX_ACTIVITIES)`s when over the cap,
writes the array back, dispatches `codedao:activity` and returns `true`. -/
def log (s : SDKState) (idv : ℚ) (ts : String) (agent action : Json)
    (ty st md : Option Json) : Bool × SDKState :=
  let activity := mkActivity idv ts agent action ty st md
  if validate activity then
    let activities := activity :: getActivities s none
    let activities :=
      if activities.length > MAX_ACTIVITIES then activities.take MAX_ACTIVITIES
      else activities
    (true, ⟨Slot.stored activities, s.events ++ [SDKEvent.activity activity]⟩)
  else
    (false, s)

/-- `AgentLogger.clear`: `removeItem` on the slot, dispatch
`codedao:cleared`, return `true`. -/
def clear (s : SDKState) : Bool × SDKState :=
  (true, ⟨Slot.absent, s.events ++ [SDKEvent.cleared]⟩)

/-- `AgentLogger.exportActivities`: `JSON.stringify(this.getActivities(), null, 2)`,
modelled at the tree level as the JSON array of the current records
(pretty-printing is below the model's serialization boundary). -/
def exportActivities (s : SDKState) : Json :=
  Json.arr (getActivities s none)

/-- `AgentLogger.importActivities(jsonData)`: `JSON.parse` the input (a parse
throw is caught: `false`, no mutation); calling `.filter` on a parse result
that is not an array throws a `TypeError`, likewise caught; on an array,
keep exactly the records the schema accepts, overwrite the slot with them,
dispatch `codedao:imported` and return `true`. -/
def importActivities (s : SDKState) (parsed : Except Unit Json) : Bool × SDKState :=
  match parsed with
  | .error _ => (false, s)
  | .ok j =>
      match j with
      | .arr activities =>
          (true, ⟨Slot.stored (activities.filter validate),
                  s.events ++ [SDKEvent.imported]⟩)
      | _ => (false, s)

/-- `activity.agent` (resp. `.type`, `.status`) as used by `getStatistics`.
Every record the store persists has passed `validate`, so the field is
present and is a JSON string; the `Json.null` default for the (unreachable)
missing-field case only serves totality. -/
def fieldOf (a : Json) (k : String) : Json :=
  (a.getField k).getD Json.null

/-- One step of `stats.byX[key] = (stats.byX[key] || 0) + 1` on a JS object
used as a counter: an existing binding is incremented in place, a new key is
appended (JS objects preserve insertion order of string keys; on the records
the store persists the keys are strings, where JS property-key coercion is
the identity, so the object is modelled as a `Json`-keyed association list). -/
def bump (m : List (Json × Nat)) (k : Json) : List (Json × Nat) :=
  if m.any (fun p => p.1 == k) then
    m.map (fun p => if p.1 == k then (p.1, p.2 + 1) else p)
  else m ++ [(k, 1)]

/-- The count a counter object holds for key `k` (`0` when absent, the JS
`|| 0` default). -/
def lookupCount (m : List (Json × Nat)) (k : Json) : Nat :=
  match m.find? (fun p => p.1 == k) with
  | some p => p.2
  | none => 0

/-- The result shape of `AgentLogger.getStatistics`. -/
structure Stats where
  total : Nat
  byAgent : List (Json × Nat)
  byType : List (Json × Nat)
  byStatus : List (Json × Nat)
  recentActivity : List Json
  deriving DecidableEq

/-- `AgentLogger.getStatistics`: one `forEach` pass over the full collection,
counting by `agent`, `type` and `status`, with `total` the collection length
and `recentActivity` its first ten records (`slice(0, 10)`). -/
def getStatistics (s : SDKState) : Stats :=
  let activities := getActivities s none
  { total := activities.length
    byAgent := activities.foldl (fun m a => bump m (fieldOf a "agent")) []
    byType := activities.foldl (fun m a => bump m (fieldOf a "type")) []
    byStatus := activities.foldl (fun m a => bump m (fieldOf a "status")) []
    recentActivity := activities.take 10 }

/-! ## Micro-step view of `log` (for the notification-ordering claim)

`log`'s success branch is straight-line code: `localStorage.setItem` (the
durable write), then `window.dispatchEvent` (synchronous delivery to all
subscribers), then `return true`.  `logActions` lists those observable
actions in program order. -/

/-- An observable action of one `AgentLogger.log` call. -/
inductive LogAction where
  | persist (l : List Json) : LogAction
  | notify (ev : SDKEvent) : LogAction
  | ret (b : Bool) : LogAction
  deriving DecidableEq

/-- The observable actions of `AgentLogger.log`, in the order the source
performs them: on a valid candidate, write the updated array, dispatch
`codedao:activity`, return `true`; on an invalid one, just return `false`. -/
def logActions (s : SDKState) (idv : ℚ) (ts : String) (agent action : Json)
    (ty st md : Option Json) : List LogAction :=
  let activity := mkActivity idv ts agent action ty st md
  if validate activity then
    let activities := activity :: getActivities s none
    let activities :=
      if activities.length > MAX_ACTIVITIES then activities.take MAX_ACTIVITIES
      else activities
    [LogAction.persist activities, LogAction.notify (SDKEvent.activity activity),
     LogAction.ret true]
  else
    [LogAction.ret false]

/-! ## Traces of public operations -/

/-- The arguments of one `AgentLogger.log` call, with the generated `id` and
`timestamp` as oracle inputs. -/
structure LogCall where
  idv : ℚ
  ts : String
  agent : Json
  action : Json
  ty : Option Json
  st : Option Json
  md : Option Json

/-- The candidate record a `LogCall` assembles. -/
def activityOf (c : LogCall) : Json :=
  mkActivity c.idv c.ts c.agent c.action c.ty c.st c.md

/-- Run one `log` call for its state effect. -/
def runLog (s : SDKState) (c : LogCall) : SDKState :=
  (log s c.idv c.ts c.agent c.action c.ty c.st c.md).2

/-- Run a sequence of `log` calls left to right. -/
def runLogs (s : SDKState) : List LogCall → SDKState
  | [] => s
  | c :: cs => runLogs (runLog s c) cs

/-- The records of a call sequence that pass validation, in call order. -/
def accepted (cs : List LogCall) : List Json :=
  (cs.filter (fun c => validate (activityOf c))).map activityOf

/-- One public mutating operation of `AgentLogger`. -/
inductive Op where
  | opLog (c : LogCall) : Op
  | opClear : Op
  | opImport (parsed : Except Unit Json) : Op

/-- Run one public operation for its state effect. -/
def runOp (s : SDKState) : Op → SDKState
  | .opLog c => runLog s c
  | .opClear => (clear s).2
  | .opImport p => (importActivities s p).2

/-- Run a sequence of public operations left to right. -/
def runOps (s : SDKState) : List Op → SDKState
  | [] => s
  | o :: os => runOps (runOp s o) os

/-! ## Concrete sample data for witnesses -/

/-- A timestamp of the exact shape `Date.prototype.toISOString` produces. -/
def sampleTs : String := "2025-01-01T00:00:00.000Z"

/-- A schema-valid activity record (the spec's concrete append scenario). -/
def sampleRec : Json :=
  mkActivity 17 sampleTs (Json.str "Claude") (Json.str "Fixed syntax error in package.json")
    (some (Json.str "commit")) (some (Json.str "success")) none

/-- A second, distinct schema-valid activity record. -/
def sampleRec2 : Json :=
  mkActivity 18 sampleTs (Json.str "ChatGPT") (Json.str "Analyzed code for security vulnerabilities")
    (some (Json.str "analysis")) (some (Json.str "success")) none

/-- A store whose slot holds exactly `sampleRec`. -/
def oneRecState : SDKState := ⟨Slot.stored [sampleRec], []⟩

/-- A schema-invalid candidate: the spec's `[{"agent":"X"}]` import example
(missing the other five required fields). -/
def invalidRec : Json := Json.obj [("agent", Json.str "X")]

/-- The distinct values of a list in order of first encounter (the key
insertion order a JS object acquires during one counting pass). -/
def firstKeys : List Json → List Json
  | [] => []
  | k :: ks => k :: (firstKeys ks).filter (fun x => !(x == k))

/-- The `log` call that assembles `sampleRec`. -/
def callA : LogCall :=
  ⟨17, sampleTs, Json.str "Claude", Json.str "Fixed syntax error in package.json",
    some (Json.str "commit"), some (Json.str "success"), none⟩

/-- The `log` call that assembles `sampleRec2`. -/
def callB : LogCall :=
  ⟨18, sampleTs, Json.str "ChatGPT", Json.str "Analyzed code for security vulnerabilities",
    some (Json.str "analysis"), some (Json.str "success"), none⟩

/-- A schema-valid record with a chosen numeric id (used to build large
all-valid import batches). -/
def batchRec (n : Nat) : Json :=
  mkActivity n sampleTs (Json.str "Claude") (Json.str "Committed changes to repository")
    (some (Json.str "commit")) (some (Json.str "success")) (some (Json.obj []))

/-- Every `batchRec` is schema-valid: only its `id` varies, and the schema
accepts any number there. -/
theorem validate_batchRec (n : Nat) : validate (batchRec n) = true := rfl

/-- A batch of 1001 distinct schema-valid records. -/
def bigBatch : List Json := (List.range 1001).map batchRec

/-! ## Helper lemmas -/

/-- Reading the whole collection of a stored slot returns it unchanged. -/
theorem getActivities_stored (l : List Json) (evs : List SDKEvent) :
    getActivities ⟨Slot.stored l, evs⟩ none = l := rfl

/-- Truncating after appending an already-truncated tail is the same as
truncating the plain append (the step that lets per-call `splice` caps
compose along a trace). -/
theorem take_append_take (X Y : List Json) (n : Nat) :
    (X ++ Y.take n).take n = (X ++ Y).take n := by
  rw [List.take_append_eq_append_take, List.take_append_eq_append_take,
    List.take_take, Nat.min_eq_left (Nat.sub_le n X.length)]

/-- A `log` call whose candidate fails validation leaves the state
untouched. -/
theorem runLog_invalid (s : SDKState) (c : LogCall)
    (hc : validate (activityOf c) = false) : runLog s c = s := by
  simp only [activityOf] at hc
  simp [runLog, log, hc]

/-- A `log` call whose candidate passes validation prepends it and keeps
the first `MAX_ACTIVITIES` records: the conditional `splice` is the plain
truncation, since truncating a list already within the cap is the
identity. -/
theorem runLog_valid (s : SDKState) (c : LogCall)
    (hc : validate (activityOf c) = true) :
    getActivities (runLog s c) none
      = (activityOf c :: getActivities s none).take MAX_ACTIVITIES := by
  have hres : runLog s c
      = ⟨Slot.stored
          (if (activityOf c :: getActivities s none).length > MAX_ACTIVITIES
            then (activityOf c :: getActivities s none).take MAX_ACTIVITIES
            else activityOf c :: getActivities s none),
        s.events ++ [SDKEvent.activity (activityOf c)]⟩ := by
    have hc' := hc
    simp only [activityOf] at hc'
    simp only [runLog, log, activityOf, hc', if_true]
  rw [hres, getActivities_stored]
  by_cases hlen : (activityOf c :: getActivities s none).length > MAX_ACTIVITIES
  · rw [if_pos hlen]
  · rw [if_neg hlen, List.take_of_length_le (Nat.le_of_not_lt hlen)]

/-- `accepted` on a cons whose head validates. -/
theorem accepted_cons_valid (c : LogCall) (cs : List LogCall)
    (hc : validate (activityOf c) = true) :
    accepted (c :: cs) = activityOf c :: accepted cs := by
  simp [accepted, List.filter_cons, hc]

/-- `accepted` on a cons whose head fails validation. -/
theorem accepted_cons_invalid (c : LogCall) (cs : List LogCall)
    (hc : validate (activityOf c) = false) :
    accepted (c :: cs) = accepted cs := by
  simp [accepted, List.filter_cons, hc]

/-- The collection after a sequence of `log` calls, starting from any state
within the cap: the accepted records, newest first, in front of the initial
collection, truncated to the cap. -/
theorem runLogs_spec (cs : List LogCall) (s : SDKState)
    (hs : (getActivities s none).length ≤ MAX_ACTIVITIES) :
    getActivities (runLogs s cs) none
      = ((accepted cs).reverse ++ getActivities s none).take MAX_ACTIVITIES := by
  induction cs generalizing s with
  | nil =>
      simp only [runLogs, accepted, List.filter_nil, List.map_nil, List.reverse_nil,
        List.nil_append]
      exact (List.take_of_length_le hs).symm
  | cons c cs ih =>
      show getActivities (runLogs (runLog s c) cs) none = _
      cases hc : validate (activityOf c) with
      | false =>
          rw [runLog_invalid s c hc, accepted_cons_invalid c cs hc]
          exact ih s hs
      | true =>
          have hlen : (getActivities (runLog s c) none).length ≤ MAX_ACTIVITIES := by
            rw [runLog_valid s c hc, List.length_take]
            exact Nat.min_le_left _ _
          rw [ih (runLog s c) hlen, runLog_valid s c hc, take_append_take,
            accepted_cons_valid c cs hc, List.reverse_cons, List.append_assoc]
          simp

/-- Schema-gate invariant: every record in the collection of any state
reachable from the fresh store by public operations passes `validate` —
`log` only adds a validated record, `importActivities` filters by
`validate`, and `clear` empties. -/
theorem allValid_runOps (ops : List Op) :
    ∀ a ∈ getActivities (runOps initState ops) none, validate a = true := by
  suffices h : ∀ (s : SDKState), (∀ a ∈ getActivities s none, validate a = true) →
      ∀ a ∈ getActivities (runOps s ops) none, validate a = true by
    exact h initState (by intro a ha; cases ha)
  induction ops with
  | nil => intro s hs; exact hs
  | cons o os ih =>
      intro s hs
      refine ih (runOp s o) ?_
      cases o with
      | opLog c =>
          cases hc : validate (activityOf c) with
          | false =>
              show ∀ a ∈ getActivities (runLog s c) none, validate a = true
              rw [runLog_invalid s c hc]
              exact hs
          | true =>
              show ∀ a ∈ getActivities (runLog s c) none, validate a = true
              rw [runLog_valid s c hc]
              intro a ha
              have ha' := List.take_subset _ _ ha
              rcases List.mem_cons.mp ha' with h | h
              · rw [h]; exact hc
              · exact hs a h
      | opClear =>
          intro a ha
          cases ha
      | opImport p =>
          cases p with
          | error e =>
              intro a ha
              exact hs a ha
          | ok j =>
              cases j with
              | arr xs =>
                  intro a ha
                  have ha' : a ∈ xs.filter validate := ha
                  exact List.of_mem_filter ha'
              | null => intro a ha; exact hs a ha
              | bool b => intro a ha; exact hs a ha
              | num q => intro a ha; exact hs a ha
              | str t => intro a ha; exact hs a ha
              | obj fs => intro a ha; exact hs a ha

/-! ## Claims -/

/-- C8: `clear` empties the collection, persists the empty state, emits a
`codedao:cleared` notification carrying no record payload, and returns
`true`; it is idempotent: a second `clear` from any starting state again
returns `true`, leaves the collection empty, and leaves the slot in the
same (empty) state. -/
theorem clear_empties_and_is_idempotent (s : SDKState) :
    (clear s).1 = true
    ∧ getActivities (clear s).2 none = []
    ∧ (clear s).2.events = s.events ++ [SDKEvent.cleared]
    ∧ (clear (clear s).2).1 = true
    ∧ getActivities (clear (clear s).2).2 none = []
    ∧ (clear (clear s).2).2.slot = (clear s).2.slot := by
  refine ⟨rfl, rfl, rfl, rfl, rfl, rfl⟩

/-- C10: an input that parses as well-formed JSON but is not an array (for
example `{}` or a bare number) makes `importActivities` return `false` and
leave the state — slot and dispatched events — completely unchanged:
`activities.filter` throws a `TypeError` on a non-array, which the `catch`
converts into the `false` return before any write or dispatch. -/
theorem import_rejects_non_array (s : SDKState) (j : Json) (h : j.isArr = false) :
    importActivities s (Except.ok j) = (false, s) := by
  cases j <;> simp_all [importActivities, Json.isArr]

/-- Witness for `import_rejects_non_array`: importing the JSON object `{}`
into the fresh store fails and changes nothing. -/
theorem import_rejects_non_array_witness :
    Json.isArr (Json.obj []) = false
    ∧ importActivities initState (Except.ok (Json.obj [])) = (false, initState) :=
  ⟨rfl, import_rejects_non_array initState (Json.obj []) rfl⟩

/-- C4 counterexample: the claim says `query(n)` returns at most `n` records
"including when n = 0", but `limit ? ... : ...` treats the number `0` as
falsy, so `getActivities` with limit `0` returns the whole collection: on a
store holding one record it returns that record, not an empty sequence. -/
theorem query_limit_zero_returns_all :
    getActivities oneRecState (some 0) = [sampleRec]
    ∧ ¬ ((getActivities oneRecState (some 0)).length ≤ 0) :=
  ⟨rfl, by decide⟩

/-- C4 (amended): for a limit `n ≥ 1`, `getActivities` returns the
`min n k` most-recent records, newest first (a prefix of the stored,
newest-first collection); with the limit omitted it returns all `k`
records; a limit of `0` is falsy in JS and behaves like an omitted limit,
returning all `k` records rather than none; and on a storage read failure
it returns `[]` for every limit and never throws. -/
theorem query_limit_amended (k : List Json) (evs : List SDKEvent) (n : Nat) (hn : 1 ≤ n) :
    getActivities ⟨Slot.stored k, evs⟩ (some (n : Int)) = k.take n
    ∧ (getActivities ⟨Slot.stored k, evs⟩ (some (n : Int))).length = min n k.length
    ∧ getActivities ⟨Slot.stored k, evs⟩ none = k
    ∧ getActivities ⟨Slot.stored k, evs⟩ (some 0) = k
    ∧ (∀ lim, getActivities ⟨Slot.corrupt, evs⟩ lim = []) := by
  have hne : (n : Int) ≠ 0 := by
    intro h
    omega
  have hslice : getActivities ⟨Slot.stored k, evs⟩ (some (n : Int)) = k.take n := by
    simp [getActivities, jsLimit, jsSliceEnd, hne]
  refine ⟨hslice, ?_, rfl, rfl, fun lim => rfl⟩
  rw [hslice, List.length_take]

/-- Witness for `query_limit_amended`: limit `1` on a two-record store
returns exactly the newest record. -/
theorem query_limit_amended_witness :
    1 ≤ 1
    ∧ (getActivities ⟨Slot.stored [sampleRec, sampleRec2], []⟩ (some ((1 : Nat) : Int))
          = [sampleRec, sampleRec2].take 1
        ∧ (getActivities ⟨Slot.stored [sampleRec, sampleRec2], []⟩ (some ((1 : Nat) : Int))).length
          = min 1 [sampleRec, sampleRec2].length
        ∧ getActivities ⟨Slot.stored [sampleRec, sampleRec2], []⟩ none = [sampleRec, sampleRec2]
        ∧ getActivities ⟨Slot.stored [sampleRec, sampleRec2], []⟩ (some 0) = [sampleRec, sampleRec2]
        ∧ (∀ lim, getActivities ⟨Slot.corrupt, ([] : List SDKEvent)⟩ lim = [])) :=
  ⟨Nat.le_refl 1, query_limit_amended [sampleRec, sampleRec2] [] 1 (Nat.le_refl 1)⟩

/-- C2: `log` persists the assembled candidate iff it satisfies the schema:
the boolean result equals `validate` of the candidate; on success the
candidate is at the head of the stored, newest-first collection and the
`codedao:activity` notification carries it; on failure the whole state —
slot and events — is untouched (nothing persisted, nothing dispatched, no
exception: `log` is a total function returning `false`), so an invalid
candidate never appears in any subsequent query result. -/
theorem append_schema_gate (s : SDKState) (idv : ℚ) (ts : String)
    (agent action : Json) (ty st md : Option Json) :
    (log s idv ts agent action ty st md).1 = validate (mkActivity idv ts agent action ty st md)
    ∧ (validate (mkActivity idv ts agent action ty st md) = true →
        (∃ r, getActivities (log s idv ts agent action ty st md).2 none
            = mkActivity idv ts agent action ty st md :: r)
        ∧ (log s idv ts agent action ty st md).2.events
            = s.events ++ [SDKEvent.activity (mkActivity idv ts agent action ty st md)])
    ∧ (validate (mkActivity idv ts agent action ty st md) = false →
        (log s idv ts agent action ty st md).2 = s)
    ∧ (validate (mkActivity idv ts agent action ty st md) = false →
        ∀ ops, mkActivity idv ts agent action ty st md
          ∉ getActivities (runOps initState ops) none) := by
  cases hv : validate (mkActivity idv ts agent action ty st md) with
  | false =>
      refine ⟨by simp [log, hv], ?_, ?_, ?_⟩
      · intro h
        exact Bool.noConfusion h
      · intro _
        simp [log, hv]
      · intro _ ops hmem
        have hval := allValid_runOps ops _ hmem
        rw [hv] at hval
        exact Bool.noConfusion hval
  | true =>
      refine ⟨by simp [log, hv], ?_, ?_, ?_⟩
      · intro _
        refine ⟨?_, by simp [log, hv]⟩
        have hres : (log s idv ts agent action ty st md).2
            = ⟨Slot.stored
                (if (mkActivity idv ts agent action ty st md :: getActivities s none).length
                      > MAX_ACTIVITIES
                  then (mkActivity idv ts agent action ty st md
                      :: getActivities s none).take MAX_ACTIVITIES
                  else mkActivity idv ts agent action ty st md :: getActivities s none),
              s.events ++ [SDKEvent.activity (mkActivity idv ts agent action ty st md)]⟩ := by
          simp only [log, hv, if_true]
        rw [hres, getActivities_stored]
        by_cases hlen :
          (mkActivity idv ts agent action ty st md :: getActivities s none).length
            > MAX_ACTIVITIES
        · rw [if_pos hlen]
          exact ⟨(getActivities s none).take (MAX_ACTIVITIES - 1),
            List.take_cons (by simp [MAX_ACTIVITIES])⟩
        · rw [if_neg hlen]
          exact ⟨getActivities s none, rfl⟩
      · intro h
        exact Bool.noConfusion h
      · intro h
        exact Bool.noConfusion h

/-- Witness for `append_schema_gate`: the spec's concrete append scenario
(`agent="Claude"`, `action="Fixed syntax error"`, `type="commit"`,
`status="success"`) against the fresh store. -/
theorem append_schema_gate_witness :
    (log initState 17 sampleTs (Json.str "Claude") (Json.str "Fixed syntax error")
        (some (Json.str "commit")) (some (Json.str "success")) none).1
      = validate (mkActivity 17 sampleTs (Json.str "Claude") (Json.str "Fixed syntax error")
        (some (Json.str "commit")) (some (Json.str "success")) none)
    ∧ (validate (mkActivity 17 sampleTs (Json.str "Claude") (Json.str "Fixed syntax error")
        (some (Json.str "commit")) (some (Json.str "success")) none) = true →
        (∃ r, getActivities (log initState 17 sampleTs (Json.str "Claude")
            (Json.str "Fixed syntax error") (some (Json.str "commit"))
            (some (Json.str "success")) none).2 none
          = mkActivity 17 sampleTs (Json.str "Claude") (Json.str "Fixed syntax error")
              (some (Json.str "commit")) (some (Json.str "success")) none :: r)
        ∧ (log initState 17 sampleTs (Json.str "Claude") (Json.str "Fixed syntax error")
            (some (Json.str "commit")) (some (Json.str "success")) none).2.events
          = initState.events ++ [SDKEvent.activity (mkActivity 17 sampleTs (Json.str "Claude")
              (Json.str "Fixed syntax error") (some (Json.str "commit"))
              (some (Json.str "success")) none)])
    ∧ (validate (mkActivity 17 sampleTs (Json.str "Claude") (Json.str "Fixed syntax error")
        (some (Json.str "commit")) (some (Json.str "success")) none) = false →
        (log initState 17 sampleTs (Json.str "Claude") (Json.str "Fixed syntax error")
          (some (Json.str "commit")) (some (Json.str "success")) none).2 = initState)
    ∧ (validate (mkActivity 17 sampleTs (Json.str "Claude") (Json.str "Fixed syntax error")
        (some (Json.str "commit")) (some (Json.str "success")) none) = false →
        ∀ ops, mkActivity 17 sampleTs (Json.str "Claude") (Json.str "Fixed syntax error")
          (some (Json.str "commit")) (some (Json.str "success")) none
          ∉ getActivities (runOps initState ops) none) :=
  append_schema_gate initState 17 sampleTs (Json.str "Claude") (Json.str "Fixed syntax error")
    (some (Json.str "commit")) (some (Json.str "success")) none

/-- C3: `importActivities` on an unparseable input returns `false` and
leaves slot and events unchanged; on a parsed array it validates each
candidate independently, drops the invalid ones without failing the batch,
replaces the entire previous collection with exactly the surviving valid
records (a destructive overwrite — the result does not depend on the prior
collection), dispatches `codedao:imported`, and returns `true`; in
particular importing a one-element batch whose sole record is invalid
returns `true` and leaves the collection empty. -/
theorem import_drops_invalid_and_replaces (s : SDKState) (xs : List Json)
    (a : Json) (hbad : validate a = false) :
    importActivities s (Except.error ()) = (false, s)
    ∧ (importActivities s (Except.ok (Json.arr xs))).1 = true
    ∧ getActivities (importActivities s (Except.ok (Json.arr xs))).2 none = xs.filter validate
    ∧ (importActivities s (Except.ok (Json.arr xs))).2.events
        = s.events ++ [SDKEvent.imported]
    ∧ (importActivities s (Except.ok (Json.arr [a]))).1 = true
    ∧ getActivities (importActivities s (Except.ok (Json.arr [a]))).2 none = [] := by
  refine ⟨rfl, rfl, rfl, rfl, rfl, ?_⟩
  simp [importActivities, getActivities, jsLimit, List.filter, hbad]

/-- Witness for `import_drops_invalid_and_replaces`: the spec's
`import('[{"agent":"X"}]')` scenario against the fresh store, alongside a
one-valid-record batch. -/
theorem import_drops_invalid_and_replaces_witness :
    validate invalidRec = false
    ∧ (importActivities initState (Except.error ()) = (false, initState)
        ∧ (importActivities initState (Except.ok (Json.arr [sampleRec]))).1 = true
        ∧ getActivities (importActivities initState (Except.ok (Json.arr [sampleRec]))).2 none
            = [sampleRec].filter validate
        ∧ (importActivities initState (Except.ok (Json.arr [sampleRec]))).2.events
            = initState.events ++ [SDKEvent.imported]
        ∧ (importActivities initState (Except.ok (Json.arr [invalidRec]))).1 = true
        ∧ getActivities (importActivities initState (Except.ok (Json.arr [invalidRec]))).2 none
            = []) :=
  ⟨rfl, import_drops_invalid_and_replaces initState [sampleRec] invalidRec rfl⟩

/-- C7: when every stored record is schema-valid, the round trip
`importActivities(exportActivities())` succeeds and leaves the visible
content of the collection — the full unlimited query result, order
included — unchanged. -/
theorem import_export_roundtrip (s : SDKState)
    (h : ∀ a ∈ getActivities s none, validate a = true) :
    (importActivities s (Except.ok (exportActivities s))).1 = true
    ∧ getActivities (importActivities s (Except.ok (exportActivities s))).2 none
        = getActivities s none := by
  refine ⟨rfl, ?_⟩
  show getActivities
      ⟨Slot.stored ((getActivities s none).filter validate), s.events ++ [SDKEvent.imported]⟩ none
    = getActivities s none
  rw [getActivities_stored, List.filter_eq_self.mpr h]

/-- Witness for `import_export_roundtrip`: a store holding one valid record
round-trips to the same visible collection. -/
theorem import_export_roundtrip_witness :
    (∀ a ∈ getActivities oneRecState none, validate a = true)
    ∧ ((importActivities oneRecState (Except.ok (exportActivities oneRecState))).1 = true
        ∧ getActivities
            (importActivities oneRecState (Except.ok (exportActivities oneRecState))).2 none
          = getActivities oneRecState none) :=
  ⟨by decide, import_export_roundtrip oneRecState (by decide)⟩

/-- C9: for every successful append, the observable actions of `log` are
exactly: the durable write of the updated array, then the synchronous
`codedao:activity` dispatch, then the `true` return — so the notification
is emitted strictly after the write and strictly before control returns;
the persisted list seen by a subscriber who re-queries from inside the
handler already starts with the newly appended record, and it is the very
list `log` leaves in the slot. -/
theorem notify_after_persist_before_return (s : SDKState) (idv : ℚ) (ts : String)
    (agent action : Json) (ty st md : Option Json)
    (hv : validate (mkActivity idv ts agent action ty st md) = true) :
    ∃ l, logActions s idv ts agent action ty st md
        = [LogAction.persist l,
           LogAction.notify (SDKEvent.activity (mkActivity idv ts agent action ty st md)),
           LogAction.ret true]
      ∧ (∃ r, l = mkActivity idv ts agent action ty st md :: r)
      ∧ (∀ evs, getActivities ⟨Slot.stored l, evs⟩ none = l)
      ∧ (log s idv ts agent action ty st md).2.slot = Slot.stored l := by
  refine ⟨if (mkActivity idv ts agent action ty st md :: getActivities s none).length
        > MAX_ACTIVITIES
      then (mkActivity idv ts agent action ty st md :: getActivities s none).take MAX_ACTIVITIES
      else mkActivity idv ts agent action ty st md :: getActivities s none, ?_, ?_, ?_, ?_⟩
  · simp only [logActions, hv, if_true]
  · by_cases hlen :
      (mkActivity idv ts agent action ty st md :: getActivities s none).length > MAX_ACTIVITIES
    · rw [if_pos hlen]
      exact ⟨(getActivities s none).take (MAX_ACTIVITIES - 1),
        List.take_cons (by simp [MAX_ACTIVITIES])⟩
    · rw [if_neg hlen]
      exact ⟨getActivities s none, rfl⟩
  · intro evs
    exact getActivities_stored _ evs
  · simp only [log, hv, if_true]

/-- Witness for `notify_after_persist_before_return`: the sample valid
append against the fresh store. -/
theorem notify_after_persist_before_return_witness :
    validate (mkActivity 17 sampleTs (Json.str "Claude")
        (Json.str "Fixed syntax error in package.json")
        (some (Json.str "commit")) (some (Json.str "success")) none) = true
    ∧ ∃ l, logActions initState 17 sampleTs (Json.str "Claude")
          (Json.str "Fixed syntax error in package.json")
          (some (Json.str "commit")) (some (Json.str "success")) none
        = [LogAction.persist l,
           LogAction.notify (SDKEvent.activity (mkActivity 17 sampleTs (Json.str "Claude")
             (Json.str "Fixed syntax error in package.json")
             (some (Json.str "commit")) (some (Json.str "success")) none)),
           LogAction.ret true]
      ∧ (∃ r, l = mkActivity 17 sampleTs (Json.str "Claude")
            (Json.str "Fixed syntax error in package.json")
            (some (Json.str "commit")) (some (Json.str "success")) none :: r)
      ∧ (∀ evs, getActivities ⟨Slot.stored l, evs⟩ none = l)
      ∧ (log initState 17 sampleTs (Json.str "Claude")
          (Json.str "Fixed syntax error in package.json")
          (some (Json.str "commit")) (some (Json.str "success")) none).2.slot
        = Slot.stored l :=
  ⟨rfl, notify_after_persist_before_return initState 17 sampleTs (Json.str "Claude")
    (Json.str "Fixed syntax error in package.json")
    (some (Json.str "commit")) (some (Json.str "success")) none rfl⟩

/-- C1 counterexample: `importActivities` never truncates to
`MAX_ACTIVITIES`.  Importing a batch of 1001 valid records into the fresh
store succeeds and leaves 1001 records in the collection, so the persisted
collection exceeds the configured maximum of 1000 after a public mutating
operation — refuting the claim's "including an import whose batch contains
more than 1000 valid records" case. -/
theorem import_overflows_capacity :
    (importActivities initState (Except.ok (Json.arr bigBatch))).1 = true
    ∧ (getActivities (importActivities initState (Except.ok (Json.arr bigBatch))).2 none).length
        = 1001
    ∧ ¬ ((getActivities (importActivities initState (Except.ok (Json.arr bigBatch))).2
          none).length ≤ MAX_ACTIVITIES) := by
  have hfilter : bigBatch.filter validate = bigBatch :=
    List.filter_eq_self.mpr (by
      intro a ha
      obtain ⟨n, _, rfl⟩ := List.mem_map.mp ha
      exact validate_batchRec n)
  have hlen :
      (getActivities (importActivities initState (Except.ok (Json.arr bigBatch))).2 none).length
        = 1001 := by
    show (getActivities ⟨Slot.stored (bigBatch.filter validate), _⟩ none).length = 1001
    rw [getActivities_stored, hfilter]
    simp [bigBatch]
  refine ⟨rfl, hlen, ?_⟩
  rw [hlen]
  simp [MAX_ACTIVITIES]

/-- C1 (amended): `log` and `clear` do maintain the capacity bound — after
any sequence of appends from a fresh store the collection is exactly the
accepted records, newest first, truncated to the 1000 most recent, hence
never longer than 1000; a single successful append from *any* state (even
one over the cap) truncates back to at most 1000; and `clear` empties the
collection — but `importActivities` stores every valid record of its batch
without truncation (its result is `batch.filter validate`, see
`import_overflows_capacity`), so an import of more than 1000 valid records
leaves the store over the cap until the next successful append. -/
theorem capacity_bound_amended (s : SDKState) (cs : List LogCall) (c : LogCall)
    (hc : validate (activityOf c) = true) :
    getActivities (runLogs initState cs) none
      = ((accepted cs).reverse).take MAX_ACTIVITIES
    ∧ (getActivities (runLogs initState cs) none).length ≤ MAX_ACTIVITIES
    ∧ (getActivities (runLog s c) none).length ≤ MAX_ACTIVITIES
    ∧ getActivities (clear s).2 none = []
    ∧ (∀ xs, getActivities (importActivities s (Except.ok (Json.arr xs))).2 none
        = xs.filter validate) := by
  have hinit : getActivities (runLogs initState cs) none
      = ((accepted cs).reverse).take MAX_ACTIVITIES := by
    have h := runLogs_spec cs initState (by simp [getActivities, initState, jsLimit])
    simpa [getActivities, initState, jsLimit] using h
  refine ⟨hinit, ?_, ?_, rfl, fun xs => rfl⟩
  · rw [hinit, List.length_take]
    exact Nat.min_le_left _ _
  · rw [runLog_valid s c hc, List.length_take]
    exact Nat.min_le_left _ _

/-- Witness for `capacity_bound_amended`: one valid append against the
fresh store, and a one-call trace. -/
theorem capacity_bound_amended_witness :
    validate (activityOf ⟨17, sampleTs, Json.str "Claude",
        Json.str "Fixed syntax error in package.json",
        some (Json.str "commit"), some (Json.str "success"), none⟩) = true
    ∧ (getActivities (runLogs initState [⟨17, sampleTs, Json.str "Claude",
          Json.str "Fixed syntax error in package.json",
          some (Json.str "commit"), some (Json.str "success"), none⟩]) none
        = ((accepted [⟨17, sampleTs, Json.str "Claude",
            Json.str "Fixed syntax error in package.json",
            some (Json.str "commit"), some (Json.str "success"), none⟩]).reverse).take
            MAX_ACTIVITIES
      ∧ (getActivities (runLogs initState [⟨17, sampleTs, Json.str "Claude",
            Json.str "Fixed syntax error in package.json",
            some (Json.str "commit"), some (Json.str "success"), none⟩]) none).length
          ≤ MAX_ACTIVITIES
      ∧ (getActivities (runLog initState ⟨17, sampleTs, Json.str "Claude",
            Json.str "Fixed syntax error in package.json",
            some (Json.str "commit"), some (Json.str "success"), none⟩) none).length
          ≤ MAX_ACTIVITIES
      ∧ getActivities (clear initState).2 none = []
      ∧ (∀ xs, getActivities (importActivities initState (Except.ok (Json.arr xs))).2 none
          = xs.filter validate)) :=
  ⟨rfl, capacity_bound_amended initState [⟨17, sampleTs, Json.str "Claude",
    Json.str "Fixed syntax error in package.json",
    some (Json.str "commit"), some (Json.str "success"), none⟩]
    ⟨17, sampleTs, Json.str "Claude", Json.str "Fixed syntax error in package.json",
      some (Json.str "commit"), some (Json.str "success"), none⟩ rfl⟩

/-- `accepted` distributes over concatenation of call sequences. -/
theorem accepted_append (l₁ l₂ : List LogCall) :
    accepted (l₁ ++ l₂) = accepted l₁ ++ accepted l₂ := by
  simp [accepted, List.filter_append]

/-- The index of an element of a prefix is its index in the whole list. -/
theorem indexOf_take_of_mem {x : Json} {l : List Json} {n : Nat}
    (h : x ∈ l.take n) : (l.take n).indexOf x = l.indexOf x := by
  have h1 : l.indexOf x = (l.take n ++ l.drop n).indexOf x := by
    rw [List.take_append_drop]
  rw [List.indexOf_append_of_mem h] at h1
  exact h1.symm

/-- An element whose index is below `n` lies in the `n`-prefix. -/
theorem mem_take_of_indexOf_lt {x : Json} {l : List Json} {n : Nat}
    (hx : x ∈ l) (h : l.indexOf x < n) : x ∈ l.take n := by
  have hlt : l.indexOf x < l.length := List.indexOf_lt_length.mpr hx
  have hlen : l.indexOf x < (l.take n).length := by
    rw [List.length_take]
    exact lt_min h hlt
  have hgt : (l.take n).get ⟨l.indexOf x, hlen⟩ = l.get ⟨l.indexOf x, hlt⟩ := by
    rw [List.get_eq_getElem, List.get_eq_getElem]
    exact List.getElem_take l
  have hget : l.get ⟨l.indexOf x, hlt⟩ = x := List.indexOf_get hlt
  rw [hget] at hgt
  exact hgt ▸ List.get_mem _ _ hlen

/-- C5: for two successful appends A then B in a trace of `log` calls from
the fresh store (with arbitrary further calls before, between and after,
and the accepted records pairwise distinct), whenever A is still in the
collection, B is too and B sits at a strictly smaller index: each
successful append prepends, so the stored collection stays in reverse
order of insertion, newest first. -/
theorem appends_keep_newest_first (cs1 cs2 cs3 : List LogCall) (cA cB : LogCall)
    (hA : validate (activityOf cA) = true) (hB : validate (activityOf cB) = true)
    (hnd : (accepted (cs1 ++ cA :: cs2 ++ cB :: cs3)).Nodup)
    (hmem : activityOf cA
      ∈ getActivities (runLogs initState (cs1 ++ cA :: cs2 ++ cB :: cs3)) none) :
    activityOf cB
      ∈ getActivities (runLogs initState (cs1 ++ cA :: cs2 ++ cB :: cs3)) none
    ∧ (getActivities (runLogs initState (cs1 ++ cA :: cs2 ++ cB :: cs3)) none).indexOf
          (activityOf cB)
      < (getActivities (runLogs initState (cs1 ++ cA :: cs2 ++ cB :: cs3)) none).indexOf
          (activityOf cA) := by
  set A := activityOf cA with hAdef
  set B := activityOf cB with hBdef
  have hfin : getActivities (runLogs initState (cs1 ++ cA :: cs2 ++ cB :: cs3)) none
      = ((accepted (cs1 ++ cA :: cs2 ++ cB :: cs3)).reverse).take MAX_ACTIVITIES := by
    have h := runLogs_spec (cs1 ++ cA :: cs2 ++ cB :: cs3) initState
      (by simp [getActivities, initState, jsLimit])
    simpa [getActivities, initState, jsLimit] using h
  have hacc : accepted (cs1 ++ cA :: cs2 ++ cB :: cs3)
      = accepted cs1 ++ A :: (accepted cs2 ++ B :: accepted cs3) := by
    rw [show cs1 ++ cA :: cs2 ++ cB :: cs3 = cs1 ++ (cA :: (cs2 ++ cB :: cs3)) by simp,
      accepted_append, accepted_cons_valid _ _ hA, accepted_append,
      accepted_cons_valid _ _ hB]
  have hrev : (accepted (cs1 ++ cA :: cs2 ++ cB :: cs3)).reverse
      = (accepted cs3).reverse
          ++ B :: ((accepted cs2).reverse ++ A :: (accepted cs1).reverse) := by
    rw [hacc]
    simp
  -- distinctness facts from Nodup
  have hnd' := hacc ▸ hnd
  have h1 : (A :: (accepted cs2 ++ B :: accepted cs3)).Nodup := hnd'.of_append_right
  have hAnotin : A ∉ accepted cs2 ++ B :: accepted cs3 := (List.nodup_cons.mp h1).1
  have h2 : (B :: accepted cs3).Nodup := (List.nodup_cons.mp h1).2.of_append_right
  have hBnotin3 : B ∉ accepted cs3 := (List.nodup_cons.mp h2).1
  have hAnotin2 : A ∉ accepted cs2 := fun h => hAnotin (List.mem_append.mpr (Or.inl h))
  have hABne : B ≠ A := fun h =>
    hAnotin (List.mem_append.mpr (Or.inr (List.mem_cons.mpr (Or.inl h.symm))))
  have hAnotin3 : A ∉ accepted cs3 := fun h =>
    hAnotin (List.mem_append.mpr (Or.inr (List.mem_cons.mpr (Or.inr h))))
  set rev := (accepted (cs1 ++ cA :: cs2 ++ cB :: cs3)).reverse with hrevdef
  have hiB : rev.indexOf B = (accepted cs3).reverse.length := by
    rw [hrev, List.indexOf_append_of_not_mem (by simpa using hBnotin3),
      List.indexOf_cons_self]
    omega
  have hiA : rev.indexOf A
      = (accepted cs3).reverse.length + (accepted cs2).reverse.length + 1 := by
    rw [hrev, List.indexOf_append_of_not_mem (by simpa using hAnotin3),
      List.indexOf_cons_ne _ hABne,
      List.indexOf_append_of_not_mem (by simpa using hAnotin2),
      List.indexOf_cons_self]
    omega
  have hmem' : A ∈ rev.take MAX_ACTIVITIES := by
    rw [hfin] at hmem
    exact hmem
  have hiAlt : rev.indexOf A < MAX_ACTIVITIES := by
    have h3 : (rev.take MAX_ACTIVITIES).indexOf A < (rev.take MAX_ACTIVITIES).length :=
      List.indexOf_lt_length.mpr hmem'
    rw [indexOf_take_of_mem hmem', List.length_take] at h3
    exact lt_of_lt_of_le h3 (Nat.min_le_left _ _)
  have hBrev : B ∈ rev := by
    rw [hrev]
    simp
  have hBfin : B ∈ rev.take MAX_ACTIVITIES :=
    mem_take_of_indexOf_lt hBrev (by omega)
  refine ⟨hfin ▸ hBfin, ?_⟩
  rw [hfin]
  rw [indexOf_take_of_mem hBfin, indexOf_take_of_mem hmem']
  omega

/-- Witness for `appends_keep_newest_first`: appending `sampleRec` then
`sampleRec2` from the fresh store puts the second append strictly before
the first in the query result. -/
theorem appends_keep_newest_first_witness :
    validate (activityOf callA) = true
    ∧ validate (activityOf callB) = true
    ∧ (accepted ([] ++ callA :: [] ++ callB :: [])).Nodup
    ∧ activityOf callA ∈ getActivities (runLogs initState ([] ++ callA :: [] ++ callB :: [])) none
    ∧ (activityOf callB
          ∈ getActivities (runLogs initState ([] ++ callA :: [] ++ callB :: [])) none
        ∧ (getActivities (runLogs initState ([] ++ callA :: [] ++ callB :: [])) none).indexOf
              (activityOf callB)
          < (getActivities (runLogs initState ([] ++ callA :: [] ++ callB :: [])) none).indexOf
              (activityOf callA)) :=
  ⟨rfl, rfl, by decide, by decide,
    appends_keep_newest_first [] [] [] callA callB rfl rfl (by decide) (by decide)⟩

theorem lookupCount_cons (a : Json × Nat) (m : List (Json × Nat)) (k : Json) :
    lookupCount (a :: m) k = if a.1 == k then a.2 else lookupCount m k := by
  by_cases h : a.1 == k <;> simp [lookupCount, List.find?_cons, h]

theorem lookupCount_absent (m : List (Json × Nat)) (k : Json)
    (h : ¬ m.any (fun p => p.1 == k) = true) : lookupCount m k = 0 := by
  induction m with
  | nil => rfl
  | cons a m ih =>
      simp only [List.any_cons, Bool.or_eq_true] at h
      push_neg at h
      rw [lookupCount_cons, if_neg h.1, ih h.2]

theorem lookupCount_incMap (m : List (Json × Nat)) (k k' : Json) :
    lookupCount (m.map (fun p => if p.1 == k then (p.1, p.2 + 1) else p)) k'
      = lookupCount m k' + (if k' = k ∧ m.any (fun p => p.1 == k') = true then 1 else 0) := by
  induction m with
  | nil => simp [lookupCount]
  | cons a m ih =>
      have hfst : (if a.1 == k then (a.1, a.2 + 1) else a).1 = a.1 := by
        by_cases h : a.1 = k <;> simp [h]
      have hsnd : (if a.1 == k then (a.1, a.2 + 1) else a).2
          = if a.1 = k then a.2 + 1 else a.2 := by
        by_cases h : a.1 = k <;> simp [h]
      rw [List.map_cons, lookupCount_cons, lookupCount_cons, hfst, hsnd, ih, List.any_cons]
      by_cases ha : a.1 = k' <;> by_cases hk : k' = k <;>
        by_cases hm : m.any (fun p => p.1 == k') = true <;>
        simp only [ha, hk, hm] <;> simp_all

theorem lookupCount_append_single (m : List (Json × Nat)) (k k' : Json) :
    lookupCount (m ++ [(k, 1)]) k'
      = if m.any (fun p => p.1 == k') = true then lookupCount m k'
        else if k == k' then 1 else 0 := by
  induction m with
  | nil =>
      rw [List.nil_append, lookupCount_cons]
      simp [lookupCount]
  | cons a m ih =>
      rw [List.cons_append, lookupCount_cons, ih, List.any_cons, lookupCount_cons]
      by_cases ha : a.1 = k' <;> by_cases hm : m.any (fun p => p.1 == k') = true <;>
        by_cases hkk : k = k' <;> simp only [ha, hm, hkk] <;> simp_all

theorem lookupCount_bump (m : List (Json × Nat)) (k k' : Json) :
    lookupCount (bump m k) k' = lookupCount m k' + (if k' = k then 1 else 0) := by
  unfold bump
  by_cases h : m.any (fun p => p.1 == k) = true
  · rw [if_pos h, lookupCount_incMap]
    by_cases hk : k' = k
    · subst hk
      rw [if_pos ⟨rfl, h⟩, if_pos rfl]
    · rw [if_neg (fun hc => hk hc.1), if_neg hk]
  · rw [if_neg h, lookupCount_append_single]
    by_cases hp : m.any (fun p => p.1 == k') = true
    · rw [if_pos hp]
      have hne : k' ≠ k := by
        rintro rfl
        exact h hp
      rw [if_neg hne, Nat.add_zero]
    · rw [if_neg hp, lookupCount_absent m k' hp]
      by_cases hk : k' = k
      · subst hk
        rw [if_pos (by simp), if_pos rfl]
      · rw [if_neg (by simp [Ne.symm hk]), if_neg hk]

theorem lookupCount_foldl (ks : List Json) (m : List (Json × Nat)) (k : Json) :
    lookupCount (ks.foldl bump m) k = lookupCount m k + ks.count k := by
  induction ks generalizing m with
  | nil => simp
  | cons a ks ih =>
      rw [List.foldl_cons, ih, lookupCount_bump, List.count_cons]
      by_cases h : k = a
      · subst h
        simp
        omega
      · rw [if_neg h, if_neg (by simp [Ne.symm h])]
        omega

theorem anyKey_eq (m : List (Json × Nat)) (x : Json) :
    m.any (fun p => p.1 == x) = (m.map Prod.fst).any (fun y => y == x) := by
  induction m with
  | nil => rfl
  | cons a m ih => simp only [List.map_cons, List.any_cons, ih]

theorem keys_bump (m : List (Json × Nat)) (k : Json) :
    (bump m k).map Prod.fst
      = if m.any (fun p => p.1 == k) then m.map Prod.fst else m.map Prod.fst ++ [k] := by
  unfold bump
  by_cases h : m.any (fun p => p.1 == k) = true
  · rw [if_pos h, if_pos h, List.map_map]
    apply List.map_congr_left
    intro p _
    by_cases hp : p.1 = k <;> simp [hp]
  · rw [if_neg h, if_neg h, List.map_append]
    rfl

theorem firstKeys_filter (l : List Json) (p : Json → Bool) :
    firstKeys (l.filter p) = (firstKeys l).filter p := by
  induction l with
  | nil => rfl
  | cons x l ih =>
      by_cases hx : p x = true
      · rw [List.filter_cons_of_pos hx, firstKeys, ih, firstKeys,
          List.filter_cons_of_pos hx, List.filter_filter, List.filter_filter]
        congr 1
        apply List.filter_congr
        intro a _
        exact Bool.and_comm _ _
      · rw [List.filter_cons_of_neg hx, ih, firstKeys, List.filter_cons_of_neg hx,
          List.filter_filter]
        apply List.filter_congr
        intro a _
        by_cases ha : a = x
        · subst ha
          simp [hx]
        · simp [ha]

theorem keys_foldl (ks : List Json) (m : List (Json × Nat)) :
    (ks.foldl bump m).map Prod.fst
      = m.map Prod.fst
        ++ firstKeys (ks.filter (fun k => !(m.any (fun p => p.1 == k)))) := by
  induction ks generalizing m with
  | nil => simp [firstKeys]
  | cons k ks ih =>
      rw [List.foldl_cons, ih (bump m k)]
      by_cases h : m.any (fun p => p.1 == k) = true
      · rw [keys_bump, if_pos h, List.filter_cons_of_neg (by simp [h])]
        congr 2
        apply List.filter_congr
        intro a _
        rw [anyKey_eq, anyKey_eq, keys_bump, if_pos h]
      · rw [keys_bump, if_neg h, List.filter_cons_of_pos (by simp [h]), firstKeys,
          List.append_assoc, List.singleton_append]
        congr 2
        rw [← firstKeys_filter, List.filter_filter]
        congr 1
        apply List.filter_congr
        intro a _
        rw [anyKey_eq (bump m k), keys_bump, if_neg h, List.any_append]
        simp only [List.any_cons, List.any_nil, Bool.or_false, Bool.not_or, ← anyKey_eq]
        rw [Bool.and_comm]
        congr 1
        · rw [Bool.beq_comm]

/-- C6: `getStatistics` is a pure function of the current collection:
`total` is the length of the unlimited query result; `recentActivity` is
exactly its first ten records (all, when fewer); and each of `byAgent`,
`byType`, `byStatus` maps each value of the respective field to its exact
occurrence count — the count the mapping holds for any value `v` is the
number of records whose field is `v`, so every record contributes exactly
one count — with keys in order of first encounter during the single
newest-first pass. -/
theorem statistics_aggregate (s : SDKState) :
    (getStatistics s).total = (getActivities s none).length
    ∧ (getStatistics s).recentActivity = (getActivities s none).take 10
    ∧ (∀ s', getActivities s' none = getActivities s none → getStatistics s' = getStatistics s)
    ∧ (∀ v, lookupCount (getStatistics s).byAgent v
        = ((getActivities s none).map (fun a => fieldOf a "agent")).count v)
    ∧ (getStatistics s).byAgent.map Prod.fst
        = firstKeys ((getActivities s none).map (fun a => fieldOf a "agent"))
    ∧ (∀ v, lookupCount (getStatistics s).byType v
        = ((getActivities s none).map (fun a => fieldOf a "type")).count v)
    ∧ (getStatistics s).byType.map Prod.fst
        = firstKeys ((getActivities s none).map (fun a => fieldOf a "type"))
    ∧ (∀ v, lookupCount (getStatistics s).byStatus v
        = ((getActivities s none).map (fun a => fieldOf a "status")).count v)
    ∧ (getStatistics s).byStatus.map Prod.fst
        = firstKeys ((getActivities s none).map (fun a => fieldOf a "status")) := by
  have hAgent : (getStatistics s).byAgent
      = ((getActivities s none).map (fun a => fieldOf a "agent")).foldl bump [] :=
    (List.foldl_map _ _ _ _).symm
  have hType : (getStatistics s).byType
      = ((getActivities s none).map (fun a => fieldOf a "type")).foldl bump [] :=
    (List.foldl_map _ _ _ _).symm
  have hStatus : (getStatistics s).byStatus
      = ((getActivities s none).map (fun a => fieldOf a "status")).foldl bump [] :=
    (List.foldl_map _ _ _ _).symm
  refine ⟨rfl, rfl, ?_, ?_, ?_, ?_, ?_, ?_, ?_⟩
  · intro s' h
    simp only [getStatistics, h]
  · intro v
    rw [hAgent, lookupCount_foldl]
    simp [lookupCount]
  · rw [hAgent, keys_foldl]
    simp
  · intro v
    rw [hType, lookupCount_foldl]
    simp [lookupCount]
  · rw [hType, keys_foldl]
    simp
  · intro v
    rw [hStatus, lookupCount_foldl]
    simp [lookupCount]
  · rw [hStatus, keys_foldl]
    simp

/-- Witness for `statistics_aggregate`: the statistics of the one-record
store. -/
theorem statistics_aggregate_witness :
    (getStatistics oneRecState).total = (getActivities oneRecState none).length
    ∧ (getStatistics oneRecState).recentActivity = (getActivities oneRecState none).take 10
    ∧ (∀ s', getActivities s' none = getActivities oneRecState none →
        getStatistics s' = getStatistics oneRecState)
    ∧ (∀ v, lookupCount (getStatistics oneRecState).byAgent v
        = ((getActivities oneRecState none).map (fun a => fieldOf a "agent")).count v)
    ∧ (getStatistics oneRecState).byAgent.map Prod.fst
        = firstKeys ((getActivities oneRecState none).map (fun a => fieldOf a "agent"))
    ∧ (∀ v, lookupCount (getStatistics oneRecState).byType v
        = ((getActivities oneRecState none).map (fun a => fieldOf a "type")).count v)
    ∧ (getStatistics oneRecState).byType.map Prod.fst
        = firstKeys ((getActivities oneRecState none).map (fun a => fieldOf a "type"))
    ∧ (∀ v, lookupCount (getStatistics oneRecState).byStatus v
        = ((getActivities oneRecState none).map (fun a => fieldOf a "status")).count v)
    ∧ (getStatistics oneRecState).byStatus.map Prod.fst
        = firstKeys ((getActivities oneRecState none).map (fun a => fieldOf a "status")) :=
  statistics_aggregate oneRecState
